import Mathlib

/-!
Shallow embedding of `DLList<T>` (src/cpp/ds/dllist.cpp), the doubly linked
list container of the compprog-library repository, together with proofs of
the specification's claims about it.

Modelling conventions:
* A list object is a `DLL.State`: the value sequence of its node chain read
  from `_head` via `_next` links (`chain`), plus the `_size` field (`siz`),
  kept separate because the source updates the two independently (moves null
  the head/tail pointers without resetting `_size`).
* An iterator is an `Option Nat`: `some i` is a pointer to the node at
  0-based chain index `i`, `none` is the null pointer (the sentinel / `end()`
  position).  Pointer equality of valid iterators of one list corresponds to
  index equality.
* Walking `k` steps along `_next` from `_head` reaches chain index `k`;
  walking `k` steps along `_prev` from `_tail` reaches `chain.reverse` index
  `k`.  This is exactly the doubly-linked invariant of a well-formed chain.
* `CHECK_THROW` failures are modelled as `Except.error` carrying the error
  kind the specification assigns to that check site; the source raises a
  single `std::runtime_error` whose message names the failed check.
* Dereferencing or walking past a null pointer in a state whose `siz`
  disagrees with its chain is undefined behavior in C++; the corresponding
  unreachable match arms return an error and are never hit by any theorem
  whose hypotheses include the class invariant `siz = chain.length`.
-/

set_option autoImplicit false
set_option linter.unusedVariables false

namespace DLL

/-- Error kinds of the specification's taxonomy (spec section 7); each kind
names the `CHECK_THROW` site of dllist.cpp that raises it. -/
inductive Err where
  | invalidArgument
  | outOfRange
  | emptyContainer
  | derefError
  | invalidIterator
deriving DecidableEq

/-- A `DLList<T>` object: the value sequence of the node chain from `_head`
(`chain`) and the `_size` field (`siz`, a `size_t`).  The class invariant is
`siz = chain.length`; states violating it are reachable in the source via
moved-from objects, so `siz` is modelled as an independent field. -/
structure State (α : Type) where
  chain : List α
  siz : Nat
deriving DecidableEq

variable {α : Type}

/-- The two-pointer midpoint loop of `_sort` (dllist.cpp lines 128-137), with
nodes replaced by their chain indices: `m1` walks forward from the front,
`m2` walks backward from the back, alternating, until `m1->_next == m2` or
`m2->_prev == m1`; the returned value is the final `m1`, the last index of
the left half.  The source runs the loop only with `m1 < m2` (a chain of at
least two nodes); the `m2 ≤ m1` guard only makes the recursion well-founded
and is never reached from `dllSort`. -/
def midLoop (m1 m2 : Nat) : Nat :=
  if m2 ≤ m1 then m1
  else if m1 + 1 = m2 then m1
  else if m2 - 1 = m1 + 1 then m1 + 1
  else midLoop (m1 + 1) (m2 - 1)
termination_by m2 - m1
decreasing_by omega

/-- The merge phase of `_sort` (dllist.cpp lines 142-182) on value sequences:
take the front of the right half exactly when `comp(right->_val, left->_val)`
holds, otherwise (including ties) the front of the left half; when one side
is exhausted the rest of the other side is spliced on unchanged.  The source
writes this as one unrolled first step, a loop while both sides are nonempty,
and a final splice; the value sequence produced is this recursion. -/
def dllMerge (comp : α → α → Bool) : List α → List α → List α
  | left, [] => left
  | [], right => right
  | a :: left, b :: right =>
    if comp b a then b :: dllMerge comp (a :: left) right
    else a :: dllMerge comp left (b :: right)
termination_by l r => l.length + r.length

theorem midLoop_eq (m1 m2 : Nat) (h : m1 < m2) : midLoop m1 m2 = (m1 + m2) / 2 := by
  rw [midLoop]
  split
  · omega
  · split
    · omega
    · split
      · omega
      · rw [midLoop_eq (m1 + 1) (m2 - 1) (by omega)]
        omega
termination_by m2 - m1
decreasing_by omega

/-- The recursive `_sort` (dllist.cpp lines 124-184) on value sequences: a
chain of at most one node is returned unchanged; otherwise the two-pointer
loop splits the chain after index `midLoop 0 (length - 1)`, both halves are
sorted recursively, and the results are merged by `dllMerge`. -/
def dllSort (comp : α → α → Bool) : List α → List α
  | [] => []
  | [a] => [a]
  | a :: b :: l =>
    dllMerge comp
      (dllSort comp ((a :: b :: l).take (midLoop 0 (l.length + 1) + 1)))
      (dllSort comp ((a :: b :: l).drop (midLoop 0 (l.length + 1) + 1)))
termination_by l => l.length
decreasing_by
  · have hm := midLoop_eq 0 (l.length + 1) (by omega)
    simp only [List.length_take, List.length_cons]
    omega
  · have hm := midLoop_eq 0 (l.length + 1) (by omega)
    simp only [List.length_drop, List.length_cons]
    omega

/-- The non-strict order induced by a comparator: `leOf comp a b` holds when
`b` is not strictly below `a`, the side `dllMerge` keeps the left element on. -/
def leOf (comp : α → α → Bool) : α → α → Bool := fun a b => !comp b a

theorem dllMerge_eq_merge (comp : α → α → Bool) :
    ∀ xs ys : List α, dllMerge comp xs ys = List.merge xs ys (leOf comp)
  | xs, [] => by cases xs <;> simp [dllMerge]
  | [], y :: ys => by simp [dllMerge]
  | x :: xs, y :: ys => by
    rw [dllMerge, List.merge]
    cases hyx : comp y x with
    | true =>
      simp only [leOf, hyx, if_true, Bool.not_true, Bool.false_eq_true, if_false]
      rw [dllMerge_eq_merge comp (x :: xs) ys]
    | false =>
      simp only [leOf, hyx, Bool.false_eq_true, if_false, Bool.not_false, if_true]
      rw [dllMerge_eq_merge comp xs (y :: ys)]
termination_by xs ys => xs.length + ys.length

theorem dllSort_eq_mergeSort (comp : α → α → Bool) :
    ∀ l : List α, dllSort comp l = List.mergeSort l (leOf comp)
  | [] => by simp [dllSort]
  | [a] => by simp [dllSort]
  | a :: b :: l => by
    have hm : midLoop 0 (l.length + 1) + 1 = (l.length + 2 + 1) / 2 := by
      rw [midLoop_eq 0 (l.length + 1) (by omega)]
      omega
    rw [dllSort, List.mergeSort, dllMerge_eq_merge]
    simp only [List.splitInTwo_fst, List.splitInTwo_snd, List.length_cons, hm]
    rw [dllSort_eq_mergeSort comp, dllSort_eq_mergeSort comp]
termination_by l => l.length
decreasing_by
  · simp only [List.length_take, List.length_cons]
    omega
  · simp only [List.length_drop, List.length_cons]
    omega

/-- The iterator `begin()` returns (dllist.cpp line 258): a pointer to
`_head`, which is null exactly when the chain is empty. -/
def beginPos (s : State α) : Option Nat :=
  if s.chain.isEmpty then none else some 0

/-- A pointer to `_tail`: null exactly when the chain is empty, otherwise the
last chain index.  `erase` of the tail and `insert` at the sentinel return
iterators built from `_tail`. -/
def tailPos (s : State α) : Option Nat :=
  if s.chain.isEmpty then none else some (s.chain.length - 1)

/-- Iterator pre-increment (dllist.cpp line 71):
`_ptr = _ptr ? _ptr->_next : _list->_head`.  A node's `_next` is null exactly
when it is the tail; the sentinel advances to `_head`. -/
def advance (s : State α) : Option Nat → Option Nat
  | some i => if i + 1 = s.chain.length then none else some (i + 1)
  | none => if s.chain.isEmpty then none else some 0

/-- Iterator pre-decrement (dllist.cpp line 73):
`_ptr = _ptr ? _ptr->_prev : _list->_tail`.  A node's `_prev` is null exactly
when it is the head; the sentinel recedes to `_tail`. -/
def recede (s : State α) : Option Nat → Option Nat
  | some i => if i = 0 then none else some (i - 1)
  | none => if s.chain.isEmpty then none else some (s.chain.length - 1)

/-- An iterator is valid for a list when it is the sentinel or points at a
live node of the chain. -/
def validPos (s : State α) : Option Nat → Prop
  | some i => i < s.chain.length
  | none => True

/-- Iterator dereference (dllist.cpp line 67): `CHECK_THROW(_ptr)` then
`_ptr->_val`.  The sentinel fails with the `DereferenceError` kind; the
out-of-chain match arm is a dangling pointer, undefined behavior in the
source, never reached for valid iterators. -/
def deref (s : State α) (p : Option Nat) : Except Err α :=
  match p with
  | none => .error .derefError
  | some i =>
    match s.chain[i]? with
    | some v => .ok v
    | none => .error .derefError

/-- The node-walk of `operator==` (dllist.cpp lines 268-275): compare values
while `n1` is non-null.  The arm with `n1` non-null and `n2` null dereferences
a null pointer in the source (unreachable when both lists satisfy the class
invariant and their sizes agree); it is modelled as `false`. -/
def eqChain [BEq α] : List α → List α → Bool
  | [], _ => true
  | _ :: _, [] => false
  | a :: l1, b :: l2 => a == b && eqChain l1 l2

/-- `operator==` (dllist.cpp lines 264-277): false on size mismatch, else
walk both chains from the heads comparing values. -/
def listEq [BEq α] (s1 s2 : State α) : Bool :=
  s1.siz == s2.siz && eqChain s1.chain s2.chain

/-- `get(i)` (dllist.cpp lines 279-297): bounds check
`i < _size && i >= -_size` (failure kind `OutOfRange`), fold negative `i` to
`j = _size + i`, then walk backward from `_tail` when `j >= _size/2`
(`while (++j < _size) n = n->_prev`, i.e. `_size - 1 - j` prev-steps), else
forward from `_head` (`j` next-steps).  Walking off the chain is undefined
behavior in the source (unreachable under the class invariant) and is
modelled by the error arms. -/
def get (s : State α) (i : Int) : Except Err α :=
  if ¬ (i < (s.siz : Int) ∧ -(s.siz : Int) ≤ i) then .error .outOfRange
  else
    let j : Nat := (if 0 ≤ i then i else (s.siz : Int) + i).toNat
    if s.siz / 2 ≤ j then
      match s.chain.reverse[s.siz - 1 - j]? with
      | some v => .ok v
      | none => .error .outOfRange
    else
      match s.chain[j]? with
      | some v => .ok v
      | none => .error .outOfRange

/-- `push_front(val)` (dllist.cpp lines 334-344): new head node, `++_size`. -/
def push_front (s : State α) (v : α) : State α :=
  ⟨v :: s.chain, s.siz + 1⟩

/-- `push_back(val)` (dllist.cpp lines 356-366): new tail node, `++_size`. -/
def push_back (s : State α) (v : α) : State α :=
  ⟨s.chain ++ [v], s.siz + 1⟩

/-- `pop_front()` (dllist.cpp lines 378-391): `CHECK_THROW(_head)` (failure
kind `EmptyContainerError`) precedes every mutation, so the error case pairs
the unchanged state; otherwise unlink and return the head value, `--_size`. -/
def pop_front (s : State α) : Except Err α × State α :=
  match s.chain with
  | [] => (.error .emptyContainer, s)
  | a :: rest => (.ok a, ⟨rest, s.siz - 1⟩)

/-- `pop_back()` (dllist.cpp lines 392-405): `CHECK_THROW(_tail)` (failure
kind `EmptyContainerError`) precedes every mutation; otherwise unlink and
return the tail value, `--_size`. -/
def pop_back (s : State α) : Except Err α × State α :=
  match s.chain.getLast? with
  | none => (.error .emptyContainer, s)
  | some a => (.ok a, ⟨s.chain.dropLast, s.siz - 1⟩)

/-- `insert(itr, val)` (dllist.cpp lines 456-476): if `itr == begin()` then
`push_front` and return `begin()`; else if `itr == end()` then `push_back`
and return an iterator to `_tail`; else `++_size` and splice a new node
between `itr`'s node and its predecessor, returning an iterator to the new
node (which sits at chain index `i` of the result).  The final match arm is
unreachable because `p = none` is caught by the `end()` test. -/
def insert (s : State α) (p : Option Nat) (v : α) : Option Nat × State α :=
  if p = beginPos s then
    let t := push_front s v
    (beginPos t, t)
  else if p = none then
    let t := push_back s v
    (some (t.chain.length - 1), t)
  else
    match p with
    | some i => (some i, ⟨s.chain.take i ++ v :: s.chain.drop i, s.siz + 1⟩)
    | none => (none, s)

/-- `erase(itr)` (dllist.cpp lines 498-522): `CHECK_THROW(itr != end())`
(failure kind `InvalidIterator`) precedes every mutation, so the sentinel
case pairs the unchanged state.  If `itr == begin()`, call `pop_front` and
return `begin()`; otherwise `--_size`, then either unlink the tail and
return the sentinel, or splice around the node and return an iterator to its
former successor (at chain index `i` of the result). -/
def erase (s : State α) (p : Option Nat) : Except Err (Option Nat) × State α :=
  match p with
  | none => (.error .invalidIterator, s)
  | some i =>
    if i = 0 then
      let r := pop_front s
      match r.1 with
      | .error e => (.error e, r.2)
      | .ok _ => (.ok (beginPos r.2), r.2)
    else if i + 1 = s.chain.length then
      (.ok none, ⟨s.chain.dropLast, s.siz - 1⟩)
    else
      (.ok (some i), ⟨s.chain.take i ++ s.chain.drop (i + 1), s.siz - 1⟩)

/-- `reverse()` (dllist.cpp lines 436-445): swap `_head` and `_tail` and swap
every node's `_prev`/`_next`; the chain read from the new head is the old
chain reversed; `_size` is untouched and no node is created or destroyed. -/
def reverse (s : State α) : State α :=
  ⟨s.chain.reverse, s.siz⟩

/-- `sort(comp)` (dllist.cpp lines 453-454 and 186-192): if `_head` is null
do nothing, else run `_sort` on the whole chain and install the returned
head/tail pair; `_size` is never touched. -/
def sort (comp : α → α → Bool) (s : State α) : State α :=
  if s.chain.isEmpty then s else ⟨dllSort comp s.chain, s.siz⟩

/-- `sort()` (dllist.cpp line 455): the default comparator is the lambda
`a < b` on the element type. -/
def sortDefault [LinearOrder α] (s : State α) : State α :=
  sort (fun a b => decide (a < b)) s

/-- Move construction (dllist.cpp lines 235-241): steal `_head`, `_tail`,
`_size`, then null the source's `_head` and `_tail`.  The source's `_size`
field is not reset.  Result: (new list, source after the move). -/
def moveConstruct (src : State α) : State α × State α :=
  (⟨src.chain, src.siz⟩, ⟨[], src.siz⟩)

/-- Move assignment (dllist.cpp lines 249-257): clear the destination, steal
`_head`, `_tail`, `_size`, null the source's `_head`/`_tail`.  The source's
`_size` field is not reset.  Result: (assigned list, source after the move). -/
def moveAssign (dst src : State α) : State α × State α :=
  (⟨src.chain, src.siz⟩, ⟨[], src.siz⟩)

/-- `operator+=(DLList&&)` (dllist.cpp lines 417-435): if `this` is empty
(null `_head`), steal the other list's fields (overwriting `_size` with the
other's); else if the other is nonempty, splice its chain onto the tail and
add its size.  In every branch the other list's `_head`/`_tail` end up null
while its `_size` field keeps its value.  Result: (this, other after). -/
def appendMove (self other : State α) : State α × State α :=
  if self.chain.isEmpty then (⟨other.chain, other.siz⟩, ⟨[], other.siz⟩)
  else if other.chain.isEmpty then (self, other)
  else (⟨self.chain ++ other.chain, self.siz + other.siz⟩, ⟨[], other.siz⟩)

/-- `_clear()` (dllist.cpp lines 97-106): delete every node walking from
`_head`, null `_head` and `_tail`; the comment and code agree that `_size`
is not touched. -/
def clearNodes (s : State α) : State α :=
  ⟨[], s.siz⟩

/-- `_copy_ll(n)` (dllist.cpp lines 108-122): duplicate the node chain
starting at `n`, one fresh node per value, preserving order. -/
def copyChain : List α → List α
  | [] => []
  | a :: rest => a :: copyChain rest

/-- Copy assignment `operator=(const DLList&)` (dllist.cpp lines 242-248) in
the aliased call `a = a`: `_clear()` nulls the shared `_head`, so the
subsequent `_copy_ll(list._head)` copies an already-empty chain, and
`_size = list._size` rewrites the unchanged size field. -/
def copyAssignSelf (s : State α) : State α :=
  let cleared := clearNodes s
  ⟨copyChain cleared.chain, cleared.siz⟩

/-- The sized constructor `DLList(siz, val)` (dllist.cpp lines 198-214):
`CHECK_THROW(siz >= 0)` and `CHECK_THROW(siz < (1LL << 48))` (failure kind
`InvalidArgument`) precede every allocation; then `siz` nodes holding `val`. -/
def fromSize (siz : Int) (val : α) : Except Err (State α) :=
  if ¬ 0 ≤ siz then .error .invalidArgument
  else if ¬ siz < 2 ^ 48 then .error .invalidArgument
  else .ok ⟨List.replicate siz.toNat val, siz.toNat⟩

/-- The chain index at which `insert` places a new value when given iterator
`p`: before node `i`, or at the end for the sentinel. -/
def posIdx (s : State α) : Option Nat → Nat
  | some i => i
  | none => s.chain.length

/-- C1: for every list and every strict-weak-ordering comparator `comp`
(asymmetric, with transitive complement), `sort(comp)` produces a chain that
is a permutation of the original, ascending for `comp` (no later element is
strictly below an earlier one), and stable (any tie keeps its original
relative order, since merging takes from the left half unless the right
front is strictly smaller); sorting an empty list is a no-op, the size field
is untouched, and the default comparator is less-than. -/
theorem claim_C1_sort (comp : α → α → Bool)
    (asymm : ∀ a b, comp a b = true → comp b a = false)
    (negtrans : ∀ a b c, comp b a = false → comp c b = false → comp c a = false)
    (s : State α) :
    (sort comp s).chain.Perm s.chain ∧
    (sort comp s).chain.Pairwise (fun a b => comp b a = false) ∧
    (∀ a b, [a, b].Sublist s.chain → comp a b = false → comp b a = false →
      [a, b].Sublist (sort comp s).chain) ∧
    (s.chain = [] → sort comp s = s) ∧
    (sort comp s).siz = s.siz ∧
    (∀ (β : Type) (inst : LinearOrder β) (t : State β),
      sortDefault t = DLL.sort (fun a b => decide (a < b)) t) := by
  have letrans : ∀ a b c : α, leOf comp a b = true → leOf comp b c = true →
      leOf comp a c = true := by
    intro a b c h1 h2
    simp only [leOf, Bool.not_eq_true'] at h1 h2 ⊢
    exact negtrans a b c h1 h2
  have letotal : ∀ a b : α, (leOf comp a b || leOf comp b a) = true := by
    intro a b
    cases h : comp b a with
    | false => simp [leOf, h]
    | true => simp [leOf, asymm b a h]
  have hchain : (sort comp s).chain = List.mergeSort s.chain (leOf comp) := by
    by_cases he : s.chain.isEmpty
    · rw [List.isEmpty_iff] at he
      simp [sort, he]
    · simp [sort, he, dllSort_eq_mergeSort]
  have hsiz : (sort comp s).siz = s.siz := by
    by_cases he : s.chain.isEmpty <;> simp [sort, he]
  refine ⟨?_, ?_, ?_, ?_, hsiz, ?_⟩
  · rw [hchain]
    exact List.mergeSort_perm s.chain (leOf comp)
  · rw [hchain]
    have hs := List.sorted_mergeSort letrans letotal s.chain
    exact hs.imp (by intro a b h; simpa [leOf, Bool.not_eq_true'] using h)
  · intro a b hsub hab hba
    rw [hchain]
    exact List.pair_sublist_mergeSort letrans letotal
      (by simp [leOf, Bool.not_eq_true', hba]) hsub
  · intro he
    simp [sort, he]
  · intro β inst t
    rfl

theorem claim_C1_sort_witness :
    (sort (fun a b : Bool => !a && b) ⟨[true, false], 2⟩).chain.Perm [true, false] ∧
    (sort (fun a b : Bool => !a && b) ⟨[true, false], 2⟩).chain.Pairwise
      (fun a b => ((!b && a) = false)) ∧
    (∀ a b, [a, b].Sublist [true, false] → (!a && b) = false → (!b && a) = false →
      [a, b].Sublist (sort (fun a b : Bool => !a && b) ⟨[true, false], 2⟩).chain) ∧
    (([true, false] : List Bool) = [] →
      sort (fun a b : Bool => !a && b) ⟨[true, false], 2⟩ = ⟨[true, false], 2⟩) ∧
    (sort (fun a b : Bool => !a && b) ⟨[true, false], 2⟩).siz = 2 ∧
    (∀ (β : Type) (inst : LinearOrder β) (t : State β),
      sortDefault t = DLL.sort (fun a b => decide (a < b)) t) :=
  claim_C1_sort (fun a b : Bool => !a && b) (by decide) (by decide) ⟨[true, false], 2⟩

/-- C9: reversing twice restores every list (including empty and singleton),
a single `reverse()` yields exactly the reversed traversal order, and the
size is unchanged. -/
theorem claim_C9_reverse (s : State α) :
    DLL.reverse (DLL.reverse s) = s ∧
    (DLL.reverse s).chain = s.chain.reverse ∧
    (DLL.reverse s).siz = s.siz := by
  refine ⟨?_, rfl, rfl⟩
  simp [DLL.reverse]

/-- C2 counterexample: move-constructing from the one-element list leaves the
source with a null chain but size field 1, so its size is not 0 and by the
list's own `operator==` it does not compare equal to a default-constructed
list. -/
theorem claim_C2_counterexample :
    (moveConstruct (⟨[(1 : Int)], 1⟩ : State Int)).2.siz ≠ 0 ∧
    listEq (moveConstruct (⟨[(1 : Int)], 1⟩ : State Int)).2 ⟨[], 0⟩ = false := by
  decide

/-- C2 amended: after move-construction, move-assignment, or move-append,
the source's head and tail are null (its chain is gone) and the moved-to
list holds the source's old chain and size, but the source's size field is
not reset: it keeps its prior value, so the source compares equal to a
default-constructed list precisely when that prior size was 0. -/
theorem claim_C2_moves [BEq α] (src dst self other : State α) :
    (moveConstruct src).1 = ⟨src.chain, src.siz⟩ ∧
    (moveConstruct src).2.chain = [] ∧
    (moveConstruct src).2.siz = src.siz ∧
    (moveAssign dst src).1 = ⟨src.chain, src.siz⟩ ∧
    (moveAssign dst src).2.chain = [] ∧
    (moveAssign dst src).2.siz = src.siz ∧
    (appendMove self other).2.chain = [] ∧
    (appendMove self other).2.siz = other.siz ∧
    listEq (moveConstruct src).2 ⟨[], 0⟩ = (src.siz == 0) := by
  refine ⟨rfl, rfl, rfl, rfl, rfl, rfl, ?_, ?_, ?_⟩
  · by_cases h1 : self.chain.isEmpty
    · simp [appendMove, h1]
    · by_cases h2 : other.chain.isEmpty
      · rw [List.isEmpty_iff] at h2
        simp [appendMove, h1, h2]
      · simp [appendMove, h1, h2]
  · by_cases h1 : self.chain.isEmpty
    · simp [appendMove, h1]
    · by_cases h2 : other.chain.isEmpty <;> simp [appendMove, h1, h2]
  · simp [listEq, moveConstruct, eqChain]

/-- C3: `erase` fails with `InvalidIterator` exactly on the sentinel (and
the failed call leaves the list untouched); on a valid node position it
removes exactly that node, decrements the count by one, keeps the other
values in order, and returns the new head iterator when erasing the head
(which is the sentinel when the list becomes empty), the sentinel when
erasing the tail, and an iterator to the former successor otherwise — all
three cases collapse to: sentinel when the erased node was the tail, else
the position now holding the former successor. -/
theorem claim_C3_erase (s : State α) (i : Nat) (hv : i < s.chain.length)
    (inv : s.siz = s.chain.length) :
    erase s none = (.error .invalidIterator, s) ∧
    erase s (some i) =
      (.ok (if i + 1 = s.chain.length then none else some i),
        ⟨s.chain.eraseIdx i, s.siz - 1⟩) := by
  refine ⟨rfl, ?_⟩
  obtain ⟨chain, siz⟩ := s
  simp only at hv inv ⊢
  cases chain with
  | nil => simp at hv
  | cons a rest =>
    by_cases hi : i = 0
    · subst hi
      cases rest with
      | nil => simp [erase, pop_front, beginPos]
      | cons b rest2 => simp [erase, pop_front, beginPos]
    · by_cases ht : i + 1 = (a :: rest).length
      · simp only [erase, if_neg hi, if_pos ht]
        rw [List.eraseIdx_eq_take_drop_succ, List.dropLast_eq_take]
        have hd : (a :: rest).drop (i + 1) = [] :=
          List.drop_of_length_le (by omega)
        rw [hd, List.append_nil]
        have hi2 : (a :: rest).length - 1 = i := by omega
        rw [hi2]
      · simp only [erase, if_neg hi, if_neg ht]
        rw [List.eraseIdx_eq_take_drop_succ]

theorem claim_C3_erase_witness :
    erase (⟨[1, 2, 3], 3⟩ : State Int) none = (.error .invalidIterator, ⟨[1, 2, 3], 3⟩) ∧
    erase (⟨[1, 2, 3], 3⟩ : State Int) (some 1) =
      (.ok (if 1 + 1 = ([1, 2, 3] : List Int).length then none else some 1),
        ⟨([1, 2, 3] : List Int).eraseIdx 1, 3 - 1⟩) :=
  claim_C3_erase ⟨[1, 2, 3], 3⟩ 1 (by simp) rfl

/-- C4: for every list and every valid iterator position (node or sentinel),
`insert(position, value)` places exactly one new node holding the value
immediately before that position (`push_front` before the head, `push_back`
at the sentinel), increments the count by one, keeps every other value in
its original order, and returns an iterator to the freshly inserted node. -/
theorem claim_C4_insert (s : State α) (p : Option Nat) (v : α)
    (hv : validPos s p) :
    insert s p v =
      (some (posIdx s p),
        ⟨s.chain.take (posIdx s p) ++ v :: s.chain.drop (posIdx s p), s.siz + 1⟩) := by
  obtain ⟨chain, siz⟩ := s
  cases p with
  | none =>
    cases chain with
    | nil => simp [insert, beginPos, posIdx, push_front]
    | cons a rest => simp [insert, beginPos, posIdx, push_back]
  | some i =>
    simp only [validPos] at hv
    cases chain with
    | nil => simp at hv
    | cons a rest =>
      by_cases hi : i = 0
      · subst hi
        simp [insert, beginPos, posIdx, push_front]
      · simp [insert, beginPos, posIdx, hi]

theorem claim_C4_insert_witness :
    insert (⟨[1, 2, 3], 3⟩ : State Int) (some 1) 9 =
      (some (posIdx (⟨[1, 2, 3], 3⟩ : State Int) (some 1)),
        ⟨([1, 2, 3] : List Int).take (posIdx (⟨[1, 2, 3], 3⟩ : State Int) (some 1)) ++
          9 :: ([1, 2, 3] : List Int).drop (posIdx (⟨[1, 2, 3], 3⟩ : State Int) (some 1)),
          3 + 1⟩) :=
  claim_C4_insert ⟨[1, 2, 3], 3⟩ (some 1) 9 (by simp [validPos])

/-- C5: for every list satisfying the class invariant and every valid index
`i` in `[0, count)`, `get(i)` and `get(i - count)` succeed with the same
element, the one at 0-based position `i` from the front, even though the
implementation walks backward from the tail for back-half indices. -/
theorem claim_C5_get_symmetry (s : State α) (i : Nat)
    (inv : s.siz = s.chain.length) (h : i < s.siz) :
    get s ((i : Int) - (s.siz : Int)) = get s (i : Int) ∧
    get s (i : Int) = .ok (s.chain.get ⟨i, by omega⟩) := by
  have hlen : s.chain.length = s.siz := inv.symm
  have hpos : get s (i : Int) = .ok (s.chain.get ⟨i, by omega⟩) := by
    rw [get, if_neg (by push_neg; constructor <;> omega)]
    simp only [Int.toNat_of_nonneg (by omega : (0 : Int) ≤ i), if_pos (by omega : (0 : Int) ≤ (i : Int))]
    rw [show ((i : Int)).toNat = i from Int.toNat_natCast i]
    by_cases hb : s.siz / 2 ≤ i
    · rw [if_pos hb]
      rw [List.getElem?_reverse (by omega), List.getElem?_eq_getElem (by omega)]
      simp only [Except.ok.injEq]
      congr 1
      · omega
    · rw [if_neg hb]
      rw [List.getElem?_eq_getElem (by omega)]
      simp [List.get_eq_getElem]
  refine ⟨?_, hpos⟩
  have hneg : get s ((i : Int) - (s.siz : Int)) = .ok (s.chain.get ⟨i, by omega⟩) := by
    rw [get, if_neg (by push_neg; constructor <;> omega)]
    have hlt : ¬ (0 : Int) ≤ (i : Int) - (s.siz : Int) := by omega
    simp only [if_neg hlt]
    have hj : ((s.siz : Int) + ((i : Int) - (s.siz : Int))).toNat = i := by omega
    rw [hj]
    by_cases hb : s.siz / 2 ≤ i
    · rw [if_pos hb]
      rw [List.getElem?_reverse (by omega), List.getElem?_eq_getElem (by omega)]
      simp only [Except.ok.injEq]
      congr 1
      · omega
    · rw [if_neg hb]
      rw [List.getElem?_eq_getElem (by omega)]
      simp [List.get_eq_getElem]
  rw [hneg, hpos]

theorem claim_C5_get_symmetry_witness :
    get (⟨[10, 20, 30], 3⟩ : State Int) ((1 : Nat) - (3 : Nat) : Int) =
      get (⟨[10, 20, 30], 3⟩ : State Int) ((1 : Nat) : Int) ∧
    get (⟨[10, 20, 30], 3⟩ : State Int) ((1 : Nat) : Int) =
      .ok (([10, 20, 30] : List Int).get ⟨1, by decide⟩) :=
  claim_C5_get_symmetry ⟨[10, 20, 30], 3⟩ 1 rfl (by decide)

/-- C6: boundary violations raise the specified error kinds: `get(count)`
and `get(-count-1)` fail with `OutOfRange`, `pop_front` and `pop_back` on an
empty list fail with `EmptyContainerError`, and dereferencing the sentinel
fails with `DereferenceError`. -/
theorem claim_C6_boundary_errors (s : State α) :
    get s (s.siz : Int) = .error .outOfRange ∧
    get s (-(s.siz : Int) - 1) = .error .outOfRange ∧
    (s.chain = [] →
      (pop_front s).1 = .error .emptyContainer ∧
      (pop_back s).1 = .error .emptyContainer) ∧
    deref s none = .error .derefError := by
  refine ⟨?_, ?_, ?_, rfl⟩
  · rw [get, if_pos (by omega)]
  · rw [get, if_pos (by omega)]
  · intro he
    obtain ⟨chain, siz⟩ := s
    simp only at he
    subst he
    exact ⟨rfl, rfl⟩

theorem claim_C6_boundary_errors_witness :
    get (⟨[], 0⟩ : State Int) ((0 : Nat) : Int) = .error .outOfRange ∧
    get (⟨[], 0⟩ : State Int) (-((0 : Nat) : Int) - 1) = .error .outOfRange ∧
    ((pop_front (⟨[], 0⟩ : State Int)).1 = .error .emptyContainer ∧
      (pop_back (⟨[], 0⟩ : State Int)).1 = .error .emptyContainer) ∧
    deref (⟨[], 0⟩ : State Int) none = .error .derefError :=
  have h := claim_C6_boundary_errors (⟨[], 0⟩ : State Int)
  ⟨h.1, h.2.1, h.2.2.1 rfl, h.2.2.2⟩

/-- C7: every rejected operation fails before mutating anything: a sized
construction with a negative or over-large size yields only the error (no
list is built), an out-of-range `get` yields only the error (it never
writes), and a pop from an empty list or an erase at the sentinel returns
the error paired with the exact original state, because in the source each
`CHECK_THROW` precedes every mutation of the object. -/
theorem claim_C7_failure_no_mutation (s : State α) (i n : Int) (v : α) :
    ((n < 0 ∨ 2 ^ 48 ≤ n) → fromSize n v = .error .invalidArgument) ∧
    (¬ (i < (s.siz : Int) ∧ -(s.siz : Int) ≤ i) → get s i = .error .outOfRange) ∧
    (s.chain = [] →
      pop_front s = (.error .emptyContainer, s) ∧
      pop_back s = (.error .emptyContainer, s)) ∧
    erase s none = (.error .invalidIterator, s) := by
  refine ⟨?_, ?_, ?_, rfl⟩
  · rintro (hn | hn)
    · rw [fromSize, if_pos (by omega)]
    · rw [fromSize, if_neg (by omega), if_pos (by omega)]
  · intro hbad
    rw [get, if_pos hbad]
  · intro he
    obtain ⟨chain, siz⟩ := s
    simp only at he
    subst he
    exact ⟨rfl, rfl⟩

theorem claim_C7_failure_no_mutation_witness :
    fromSize (-1) (0 : Int) = .error .invalidArgument ∧
    get (⟨[], 0⟩ : State Int) 5 = .error .outOfRange ∧
    (pop_front (⟨[], 0⟩ : State Int) = (.error .emptyContainer, ⟨[], 0⟩) ∧
      pop_back (⟨[], 0⟩ : State Int) = (.error .emptyContainer, ⟨[], 0⟩)) ∧
    erase (⟨[], 0⟩ : State Int) none = (.error .invalidIterator, ⟨[], 0⟩) :=
  have h := claim_C7_failure_no_mutation (⟨[], 0⟩ : State Int) 5 (-1) 0
  ⟨h.1 (Or.inl (by decide)), h.2.1 (by decide), h.2.2.1 rfl, h.2.2.2⟩

theorem advance_validPos (s : State α) (p : Option Nat) (h : validPos s p) :
    validPos s (advance s p) := by
  cases p with
  | none =>
    simp only [advance]
    by_cases he : s.chain.isEmpty
    · simp [he, validPos]
    · simp only [he, if_false, validPos]
      have hne : s.chain ≠ [] := by simpa [List.isEmpty_iff] using he
      exact List.length_pos.mpr hne
  | some i =>
    simp only [validPos] at h
    simp only [advance]
    by_cases ht : i + 1 = s.chain.length
    · simp [ht, validPos]
    · simp only [ht, if_false, validPos]
      omega

theorem recede_validPos (s : State α) (p : Option Nat) (h : validPos s p) :
    validPos s (recede s p) := by
  obtain ⟨chain, siz⟩ := s
  cases p with
  | none =>
    cases chain with
    | nil => simp [recede, validPos]
    | cons a l =>
      simp only [recede, List.isEmpty_cons, Bool.false_eq_true, if_false]
      show (a :: l).length - 1 < (a :: l).length
      simp
  | some i =>
    simp only [validPos] at h
    cases chain with
    | nil => simp at h
    | cons a l =>
      by_cases hz : i = 0
      · simp [recede, hz, validPos]
      · simp only [recede, if_neg hz]
        show i - 1 < (a :: l).length
        simp only [List.length_cons] at h ⊢
        omega

theorem recede_advance (s : State α) (p : Option Nat) (h : validPos s p) :
    recede s (advance s p) = p := by
  obtain ⟨chain, siz⟩ := s
  cases p with
  | none =>
    cases chain with
    | nil => simp [advance, recede]
    | cons a l => simp [advance, recede]
  | some i =>
    simp only [validPos] at h
    cases chain with
    | nil => simp at h
    | cons a l =>
      by_cases ht : i + 1 = (a :: l).length
      · simp only [advance, if_pos ht, recede, List.isEmpty_cons,
          Bool.false_eq_true, if_false]
        simp only [List.length_cons] at ht ⊢
        congr 1
        omega
      · simp only [advance, if_neg ht, recede, if_neg (by omega : ¬i + 1 = 0)]
        simp

theorem advance_recede (s : State α) (p : Option Nat) (h : validPos s p) :
    advance s (recede s p) = p := by
  obtain ⟨chain, siz⟩ := s
  cases p with
  | none =>
    cases chain with
    | nil => simp [advance, recede]
    | cons a l =>
      simp only [recede, List.isEmpty_cons, Bool.false_eq_true, if_false, advance]
      rw [if_pos (by simp)]
  | some i =>
    simp only [validPos] at h
    cases chain with
    | nil => simp at h
    | cons a l =>
      by_cases hz : i = 0
      · simp [recede, hz, advance]
      · simp only [recede, if_neg hz, advance, List.length_cons]
        simp only [List.length_cons] at h
        rw [if_neg (by omega)]
        congr 1
        omega

theorem advance_iterate_validPos (s : State α) (p : Option Nat) (n : Nat)
    (h : validPos s p) : validPos s ((advance s)^[n] p) := by
  induction n with
  | zero => simpa
  | succ n ih =>
    rw [Function.iterate_succ_apply']
    exact advance_validPos s _ ih

theorem recede_iterate_validPos (s : State α) (p : Option Nat) (n : Nat)
    (h : validPos s p) : validPos s ((recede s)^[n] p) := by
  induction n with
  | zero => simpa
  | succ n ih =>
    rw [Function.iterate_succ_apply']
    exact recede_validPos s _ ih

theorem recede_iterate_advance_iterate (s : State α) (p : Option Nat) (n : Nat)
    (h : validPos s p) : (recede s)^[n] ((advance s)^[n] p) = p := by
  induction n with
  | zero => rfl
  | succ n ih =>
    rw [Function.iterate_succ_apply' (advance s), Function.iterate_succ_apply (recede s),
      recede_advance s _ (advance_iterate_validPos s p n h), ih]

theorem advance_iterate_recede_iterate (s : State α) (p : Option Nat) (n : Nat)
    (h : validPos s p) : (advance s)^[n] ((recede s)^[n] p) = p := by
  induction n with
  | zero => rfl
  | succ n ih =>
    rw [Function.iterate_succ_apply' (recede s), Function.iterate_succ_apply (advance s),
      advance_recede s _ (recede_iterate_validPos s p n h), ih]

theorem advance_iterate_beginPos (s : State α) (hne : ¬s.chain.isEmpty)
    (k : Nat) (hk : k ≤ s.chain.length) :
    (advance s)^[k] (beginPos s) = if k = s.chain.length then none else some k := by
  have hl : 0 < s.chain.length :=
    List.length_pos.mpr (by simpa [List.isEmpty_iff] using hne)
  induction k with
  | zero =>
    rw [if_neg (by omega)]
    simp [beginPos, hne]
  | succ k ih =>
    rw [Function.iterate_succ_apply', ih (by omega), if_neg (by omega : k ≠ s.chain.length)]
    rfl

/-- C8: iteration is cyclic and symmetric: from any valid position (node or
sentinel) advancing `n` times then receding `n` times (and vice versa)
returns to the start; advancing from the last node gives the sentinel and
from the sentinel gives the head, receding from the head gives the sentinel
and from the sentinel gives the tail; and advancing `count + 1` times from
the head returns to the head. -/
theorem claim_C8_cyclic_iteration (s : State α) (p : Option Nat) (n : Nat)
    (hv : validPos s p) (inv : s.siz = s.chain.length) :
    (recede s)^[n] ((advance s)^[n] p) = p ∧
    (advance s)^[n] ((recede s)^[n] p) = p ∧
    (s.chain ≠ [] → advance s (some (s.chain.length - 1)) = none) ∧
    advance s none = beginPos s ∧
    (s.chain ≠ [] → recede s (some 0) = none) ∧
    recede s none = tailPos s ∧
    (advance s)^[s.siz + 1] (beginPos s) = beginPos s := by
  refine ⟨recede_iterate_advance_iterate s p n hv,
    advance_iterate_recede_iterate s p n hv, ?_, rfl, ?_, rfl, ?_⟩
  · intro hne
    have hl := List.length_pos.mpr hne
    simp only [advance]
    rw [if_pos (by omega)]
  · intro hne
    simp [recede]
  · rw [inv]
    by_cases he : s.chain.isEmpty
    · have hb : beginPos s = none := by simp [beginPos, he]
      have hfix : advance s none = none := by simp [advance, he]
      rw [hb]
      exact Function.iterate_fixed hfix _
    · rw [Function.iterate_succ_apply',
        advance_iterate_beginPos s he s.chain.length (le_refl _), if_pos rfl]
      rfl

theorem claim_C8_cyclic_iteration_witness :
    (recede (⟨[1, 2, 3], 3⟩ : State Int))^[2]
      ((advance (⟨[1, 2, 3], 3⟩ : State Int))^[2] (some 1)) = some 1 ∧
    (advance (⟨[1, 2, 3], 3⟩ : State Int))^[2]
      ((recede (⟨[1, 2, 3], 3⟩ : State Int))^[2] (some 1)) = some 1 ∧
    (([1, 2, 3] : List Int) ≠ [] →
      advance (⟨[1, 2, 3], 3⟩ : State Int) (some (([1, 2, 3] : List Int).length - 1)) = none) ∧
    advance (⟨[1, 2, 3], 3⟩ : State Int) none = beginPos ⟨[1, 2, 3], 3⟩ ∧
    (([1, 2, 3] : List Int) ≠ [] → recede (⟨[1, 2, 3], 3⟩ : State Int) (some 0) = none) ∧
    recede (⟨[1, 2, 3], 3⟩ : State Int) none = tailPos ⟨[1, 2, 3], 3⟩ ∧
    (advance (⟨[1, 2, 3], 3⟩ : State Int))^[3 + 1] (beginPos ⟨[1, 2, 3], 3⟩) =
      beginPos ⟨[1, 2, 3], 3⟩ :=
  claim_C8_cyclic_iteration ⟨[1, 2, 3], 3⟩ (some 1) 2 (by simp [validPos]) rfl

/-- C10: self-copy-assignment is expected to leave the list unchanged, but
the code `_clear()`s first and only then copies from the (now shared and
already emptied) source, so `a = a` on the one-element list loses the
element while keeping the size field: the code slip refutes the claim. -/
theorem claim_C10_self_assign_bug :
    copyAssignSelf (⟨[(1 : Int)], 1⟩ : State Int) = ⟨[], 1⟩ ∧
    copyAssignSelf (⟨[(1 : Int)], 1⟩ : State Int) ≠ ⟨[(1 : Int)], 1⟩ := by
  decide

end DLL
